import Mathlib

/-!
# Verification of the SubproblemComp wrapper (OpenMDAO subproblem component)

This file gives a shallow embedding of `openmdao/core/Subproblem/SubproblemComp.py`:

* the constructor's selector-resolution loops over the model input/output tables
  (`SubproblemComp.__init__`, the two `for` loops over `inputs` and `outputs`);
* the `setup`, `compute` and `compute_partials` methods.

Python dicts are embedded as ordered association lists with insert-or-overwrite
semantics (`dictInsert`), so that dict comprehensions with a constant key — as
written in the source — are modelled faithfully.  Exceptions are embedded as an
`Except` error type.  The inner `om.Problem` object is not part of the sources
under verification, so it is modelled from the spec's external-interface section
(see `InnerProblem`, `InnerEngine` below).
-/

deriving instance DecidableEq for Except

namespace Subproblem

/-- One entry of a model's flattened variable table, as harvested by
`list_inputs`/`list_outputs` with `prom_name=True, units=True, shape=True,
desc=True`: the metadata dict carries the promoted name, units, shape and
description. -/
structure VarMeta where
  prom_name : String
  units : String
  shape : List Nat
  desc : String
deriving DecidableEq, Repr

/-- A user selector, either a bare promoted-name string or a
(promoted name, variable name) tuple, mirroring the two accepted element
shapes of the `inputs`/`outputs` arguments. -/
inductive Selector where
  | bare (name : String)
  | pair (prom var_name : String)
deriving DecidableEq, Repr

/-- The requested alias of a selector: the bare name itself, or the second
tuple component. -/
def Selector.reqName : Selector → String
  | .bare name => name
  | .pair _ a => a

/-- The exceptions `SubproblemComp.__init__` can raise, one constructor per
`raise Exception(...)` site (plus the `TypeError` of iterating `None`). -/
inductive SubError where
  | duplicateAlias (v : String)
  | unknownVariable (v : String)
  | ambiguousVariable (v : String)
  | noneNotIterable
deriving DecidableEq, Repr

/-- Python's `s.endswith(p)`: `p` is a suffix of `s`, compared code point by
code point.  (Defined over the strings' character lists so that it evaluates
inside the kernel; Lean's own `String.endsWith` agrees but is built on byte
positions that do not reduce.) -/
def pyEndsWith (s p : String) : Bool :=
  p.data.isSuffixOf s.data

/-- A Python dict with `String` keys and `VarMeta` values, as an ordered
association list: keys are unique, iteration follows insertion order. -/
abbrev VarDict := List (String × VarMeta)

/-- The keys of a dict, in iteration order (`list(d.keys())`). -/
def dictKeys (d : VarDict) : List String := d.map Prod.fst

/-- Python dict assignment `d[k] = v`: overwrite in place if `k` is present,
else append at the end. -/
def dictInsert (d : VarDict) (k : String) (v : VarMeta) : VarDict :=
  if k ∈ dictKeys d then
    d.map (fun kv => if kv.1 = k then (k, v) else kv)
  else
    d ++ [(k, v)]

/-- Python `d.update(d2)`: assign every entry of `d2` into `d`, in order. -/
def dictUpdate (d d2 : VarDict) : VarDict :=
  d2.foldl (fun acc kv => dictInsert acc kv.1 kv.2) d

/-- A Python dict comprehension whose key expression is the constant `key`:
`{key: meta for meta in ms}`.  Every iteration assigns to the same key, so the
result has at most one entry, holding the last element of `ms`. -/
def dictComp (key : String) (ms : List VarMeta) : VarDict :=
  ms.foldl (fun acc m => dictInsert acc key m) []

/-- The values of a table in iteration order: `[meta for _, meta in d.items()]`. -/
def dictVals (d : VarDict) : List VarMeta := d.map Prod.snd

/-- The table entries an exact-match (tuple) selector collects:
`[meta for _, meta in table.items() if meta['prom_name'] == prom]`. -/
def pairMatches (table : VarDict) (prom : String) : List VarMeta :=
  (dictVals table).filter (fun m => m.prom_name = prom)

/-- The table entries a bare-string selector collects:
`[meta for _, meta in table.items() if meta['prom_name'].endswith(name)]`. -/
def bareMatches (table : VarDict) (name : String) : List VarMeta :=
  (dictVals table).filter (fun m => pyEndsWith m.prom_name name)

/-- One iteration of the constructor's validation loop, for a single selector.
This embeds both the `inputs` loop (lines 87-136) and the `outputs` loop
(lines 139-187) of `SubproblemComp.__init__`: the two loops are identical up to
the wording of the raised messages.  `acc` is the options dict accumulated so
far (`self.options['inputs']` resp. `self.options['outputs']`). -/
def processSelector (table : VarDict) (acc : VarDict) :
    Selector → Except SubError VarDict
  | .pair prom a =>
      -- if inp[1] in list(self.options[...].keys()): raise
      if a ∈ dictKeys acc then
        .error (.duplicateAlias a)
      else
        -- inp_dict = {inp[1]: meta for _, meta in table.items()
        --             if meta['prom_name'] == inp[0]}
        let d := dictComp a (pairMatches table prom)
        -- if len(inp_dict) == 0: raise
        if d.length = 0 then
          .error (.unknownVariable prom)
        else
          -- self.options[...].update(inp_dict)
          .ok (dictUpdate acc d)
  | .bare name =>
      -- if inp in list(self.options[...].keys()): raise
      if name ∈ dictKeys acc then
        .error (.duplicateAlias name)
      else
        -- inp_dict = {inp: meta for _, meta in table.items()
        --             if meta['prom_name'].endswith(inp)}
        let d := dictComp name (bareMatches table name)
        -- if len(inp_dict) > 1: raise ambiguous
        if d.length > 1 then
          .error (.ambiguousVariable name)
        -- elif len(inp_dict) == 0: raise
        else if d.length = 0 then
          .error (.unknownVariable name)
        else
          -- self.options[...].update(inp_dict)
          .ok (dictUpdate acc d)

/-- The whole validation loop over one selector list, starting from the empty
options dict declared by `self.options.declare(..., {})`. -/
def resolveSelectors (table : VarDict) (sels : List Selector) :
    Except SubError VarDict :=
  sels.foldlM (processSelector table) []

/-- The selector arguments default to `None`; `for inp in inputs:` over `None`
raises `TypeError` before the loop body runs. -/
def resolveSelectorsOpt (table : VarDict) :
    Option (List Selector) → Except SubError VarDict
  | none => .error .noneNotIterable
  | some sels => resolveSelectors table sels

/-- The state `__init__` leaves behind on success: the two options dicts and
the `_prev_complex_step` flag (initialised `False` at line 66). -/
structure NodeInit where
  inputs : VarDict
  outputs : VarDict
  prevComplexStep : Bool
deriving DecidableEq, Repr

/-- `SubproblemComp.__init__` after the probe problem is discarded: run the
input loop over the harvested input table, then the output loop over the
output table.  Any raised exception aborts construction: no instance is
returned. -/
def subproblemInit (modelInputs modelOutputs : VarDict)
    (inputs outputs : Option (List Selector)) : Except SubError NodeInit := do
  let ins ← resolveSelectorsOpt modelInputs inputs
  let outs ← resolveSelectorsOpt modelOutputs outputs
  .ok ⟨ins, outs, false⟩

/-- Modelled from the spec: the spec's notion of a dotted-path suffix match
("the promoted name equals the name or ends with a dot followed by the name").
This is the spec-side definition for the refinement claim about bare-selector
matching; the source-side definition is `bareMatches`. -/
def isDottedSuffix (name prom : String) : Bool :=
  prom = name || pyEndsWith prom ("." ++ name)

/-- Modelled from the spec: the match set the spec prescribes for a bare
selector — exactly the entries whose promoted name ends with the name as a
dotted-path suffix. -/
def dottedSuffixMatches (table : VarDict) (name : String) : List VarMeta :=
  (dictVals table).filter (fun m => isDottedSuffix name m.prom_name)

/-- Modelled from the spec: the private inner evaluation context
(`om.Problem`) as seen through the external interface the wrapper uses —
a value store addressed by promoted name, the complex-step flag set by
`set_complex_step_mode`, the `force_alloc_complex` setup argument, and a
count of how many `setup()/final_setup()` provisioning sequences have run. -/
structure InnerProblem (V : Type) where
  vals : String → V
  complexStepMode : Bool
  forceAllocComplex : Bool
  provisionCount : Nat

/-- Modelled from the spec: the external inner-evaluation-engine semantics.
`vals0` is the deterministic value state a fresh `setup()/final_setup()`
establishes; `runModel` is the model's own settle (`run_model`); `runDriver`
runs the attached driver to convergence (`run_driver`).  Both are arbitrary
deterministic state transformers, as the engine is out of scope. -/
structure InnerEngine (V : Type) where
  vals0 : String → V
  runModel : (String → V) → (String → V)
  runDriver : (String → V) → (String → V)

/-- Modelled from the spec: `p.setup(force_alloc_complex=b); p.final_setup()`
— re-provision the context: storage is reallocated (values reset to the
engine's fresh state) and the provision count increments. -/
def provision {V : Type} (E : InnerEngine V) (p : InnerProblem V)
    (forceAllocComplex : Bool) : InnerProblem V :=
  { vals := E.vals0, complexStepMode := p.complexStepMode,
    forceAllocComplex := forceAllocComplex,
    provisionCount := p.provisionCount + 1 }

/-- Modelled from the spec: `p.set_complex_step_mode(b)`. -/
def setComplexStepMode {V : Type} (p : InnerProblem V) (b : Bool) :
    InnerProblem V :=
  { p with complexStepMode := b }

/-- Modelled from the spec: `p.set_val(prom_name, value)` — pointwise update
of the store at a promoted name. -/
def setVal {V : Type} (vs : String → V) (k : String) (v : V) : String → V :=
  fun n => if n = k then v else vs n

/-- The state `SubproblemComp.setup` leaves behind: the options dicts, the
`_input_names`/`_output_names` lists, the `_prev_complex_step` flag, whether a
driver was supplied, and the provisioned `self._subprob`. -/
structure NodeState (V : Type) where
  options_inputs : VarDict
  options_outputs : VarDict
  input_names : List String
  output_names : List String
  prevComplexStep : Bool
  hasDriver : Bool
  subprob : InnerProblem V

/-- `self.options[...][name]['prom_name']`: the promoted name stored under an
alias in an options dict.  In the source a missing alias would be a `KeyError`;
the claims only evaluate nodes built by `setupNode`, where every name in
`_input_names`/`_output_names` is a key of the corresponding dict, so the
default is never reached there. -/
def lookupProm (d : VarDict) (a : String) : String :=
  match d.find? (fun kv => kv.1 = a) with
  | some kv => kv.2.prom_name
  | none => ""

/-- The net effect on one metadata dict of
`prom_name = meta.pop('prom_name'); self.add_input(var, **meta);
meta['prom_name'] = prom_name`: the promoted name is removed and then put
back, so the contents are restored field for field. -/
def metaPopRestore (m : VarMeta) : VarMeta :=
  { prom_name := m.prom_name, units := m.units, shape := m.shape,
    desc := m.desc }

/-- `SubproblemComp.setup`: provision `self._subprob` once
(`p.setup(force_alloc_complex=False); p.final_setup()`), then walk the two
options dicts declaring the component's own inputs/outputs, popping and
restoring each metadata's promoted name, and recording the names in
`_input_names`/`_output_names`. -/
def setupNode {V : Type} (E : InnerEngine V) (init : NodeInit)
    (hasDriver : Bool) : NodeState V :=
  { options_inputs := init.inputs.map (fun kv => (kv.1, metaPopRestore kv.2)),
    options_outputs := init.outputs.map (fun kv => (kv.1, metaPopRestore kv.2)),
    input_names := init.inputs.map Prod.fst,
    output_names := init.outputs.map Prod.fst,
    prevComplexStep := init.prevComplexStep,
    hasDriver := hasDriver,
    subprob := { vals := E.vals0, complexStepMode := false,
                 forceAllocComplex := false, provisionCount := 1 } }

/-- The mode-transition block at the top of `SubproblemComp.compute`
(lines 236-246): rebuild the subproblem when `under_complex_step` differs
from `_prev_complex_step`, then record the new mode. -/
def modeTransition {V : Type} (E : InnerEngine V) (p : InnerProblem V)
    (prev ucs : Bool) : InnerProblem V :=
  if ucs ≠ prev then
    if ucs then
      setComplexStepMode (provision E p true) true
    else
      setComplexStepMode (provision E p false) false
  else p

/-- The input-marshalling loop shared by `compute` and `compute_partials`:
`for inp in self._input_names: p.set_val(options['inputs'][inp]['prom_name'],
inputs[inp])`. -/
def pushInputs {V : Type} (st : NodeState V) (inputs : String → V)
    (vs : String → V) : String → V :=
  st.input_names.foldl
    (fun acc inp => setVal acc (lookupProm st.options_inputs inp) (inputs inp))
    vs

/-- `SubproblemComp.compute`: handle a mode transition, push the caller's
input values by promoted name, run the driver if one is attached and
otherwise `run_model`, then read every declared output alias's value from the
settled store by promoted name.  Returns the updated node state and the
output mapping in declaration order. -/
def computeStep {V : Type} (E : InnerEngine V) (st : NodeState V)
    (ucs : Bool) (inputs : String → V) : NodeState V × List (String × V) :=
  let p := modeTransition E st.subprob st.prevComplexStep ucs
  let prev := if ucs ≠ st.prevComplexStep then ucs else st.prevComplexStep
  let pushed := pushInputs st inputs p.vals
  let settled := if st.hasDriver then E.runDriver pushed else E.runModel pushed
  let outs := st.output_names.map
    (fun op => (op, settled (lookupProm st.options_outputs op)))
  ({ st with subprob := { p with vals := settled }, prevComplexStep := prev },
   outs)

/-- The single `compute_totals` invocation `compute_partials` makes:
the names it passes as `of` and `wrt`. -/
structure TotalsCall where
  of : List String
  wrt : List String
deriving DecidableEq, Repr

/-- `SubproblemComp.compute_partials`: push the caller's input values by
promoted name, then call `p.compute_totals(of=self._output_names,
wrt=self._input_names, use_abs_names=False)` exactly once and copy
`tots[of, wrt]` into `partials[of, wrt]` for every output name × input name
pair.  `tots` abstracts the engine's returned per-pair blocks (type `M`);
the result lists the store after marshalling, the single call made, and the
assembled Jacobian entries in loop order. -/
def computePartialsStep {V M : Type} (st : NodeState V) (inputs : String → V)
    (tots : String × String → M) :
    NodeState V × TotalsCall × List ((String × String) × M) :=
  let pushed := pushInputs st inputs st.subprob.vals
  let call : TotalsCall := ⟨st.output_names, st.input_names⟩
  let entries := st.output_names.flatMap
    (fun o => st.input_names.map (fun w => ((o, w), tots (o, w))))
  ({ st with subprob := { st.subprob with vals := pushed } }, call, entries)

/-! ## Helper lemmas about the dict embedding and the resolver -/

theorem dictKeys_append (d d2 : VarDict) :
    dictKeys (d ++ d2) = dictKeys d ++ dictKeys d2 := by
  simp [dictKeys]

theorem dictInsert_of_not_mem {d : VarDict} {k : String} (v : VarMeta)
    (h : k ∉ dictKeys d) : dictInsert d k v = d ++ [(k, v)] := by
  simp [dictInsert, h]

theorem dictInsert_of_mem {d : VarDict} {k : String} (v : VarMeta)
    (h : k ∈ dictKeys d) :
    dictInsert d k v = d.map (fun kv => if kv.1 = k then (k, v) else kv) := by
  simp [dictInsert, h]

theorem dictComp_cons (key : String) (m : VarMeta) (ms : List VarMeta) :
    dictComp key (m :: ms) = [(key, ms.getLastD m)] := by
  suffices h : ∀ (ms : List VarMeta) (v : VarMeta),
      ms.foldl (fun acc m => dictInsert acc key m) [(key, v)]
        = [(key, ms.getLastD v)] by
    have h0 : dictInsert ([] : VarDict) key m = [(key, m)] := by
      simp [dictInsert, dictKeys]
    simpa [dictComp, h0] using h ms m
  intro ms
  induction ms with
  | nil => intro v; simp
  | cons m2 ms ih =>
      intro v
      have hstep : dictInsert [(key, v)] key m2 = [(key, m2)] := by
        simp [dictInsert, dictKeys]
      simp [List.foldl_cons, hstep, ih m2, List.getLast?_cons]

theorem dictComp_eq_getLast (key : String) (ms : List VarMeta) :
    dictComp key ms =
      match ms.getLast? with
      | none => []
      | some m => [(key, m)] := by
  cases ms with
  | nil => rfl
  | cons m ms =>
      simp [dictComp_cons, List.getLast?_cons, List.getLastD_eq_getLast?]

theorem dictComp_length_le_one (key : String) (ms : List VarMeta) :
    (dictComp key ms).length ≤ 1 := by
  rw [dictComp_eq_getLast]
  cases ms.getLast? <;> simp

theorem dictUpdate_singleton (acc : VarDict) (k : String) (v : VarMeta) :
    dictUpdate acc [(k, v)] = dictInsert acc k v := rfl

/-- A selector whose requested alias is already a key of the accumulated
options dict is rejected at the duplicate check, whatever its shape. -/
theorem processSelector_duplicate (table acc : VarDict) (s : Selector)
    (h : s.reqName ∈ dictKeys acc) :
    processSelector table acc s = .error (.duplicateAlias s.reqName) := by
  cases s with
  | bare name => simp [processSelector, Selector.reqName] at h ⊢; simp [h]
  | pair prom a => simp [processSelector, Selector.reqName] at h ⊢; simp [h]

/-- The ambiguity branch of the bare-selector case is dead code: the
comprehension dict carries a constant key, so its length never exceeds one,
and no selector shape can produce the ambiguity error. -/
theorem processSelector_ne_ambiguous (table acc : VarDict) (s : Selector)
    (v : String) :
    processSelector table acc s ≠ .error (.ambiguousVariable v) := by
  cases s with
  | bare name =>
      have hle := dictComp_length_le_one name (bareMatches table name)
      have hgt : ¬ (dictComp name (bareMatches table name)).length > 1 := by
        omega
      by_cases hdup : name ∈ dictKeys acc
      · simp [processSelector, hdup]
      · by_cases hz : (dictComp name (bareMatches table name)).length = 0
        · simp [processSelector, hdup, hgt, hz]
        · simp [processSelector, hdup, hgt, hz]
  | pair prom a =>
      by_cases hdup : a ∈ dictKeys acc
      · simp [processSelector, hdup]
      · by_cases hz : (dictComp a (pairMatches table prom)).length = 0
        · simp [processSelector, hdup, hz]
        · simp [processSelector, hdup, hz]

/-- A successful step appends exactly the requested alias to the keys. -/
theorem processSelector_ok_keys (table acc acc2 : VarDict) (s : Selector)
    (h : processSelector table acc s = .ok acc2) :
    s.reqName ∉ dictKeys acc ∧ dictKeys acc2 = dictKeys acc ++ [s.reqName] := by
  cases s with
  | bare name =>
      by_cases hdup : name ∈ dictKeys acc
      · simp [processSelector, hdup] at h
      · refine ⟨hdup, ?_⟩
        rw [processSelector] at h
        simp only [hdup, if_neg, ite_false] at h
        rcases hcomp : (bareMatches table name).getLast? with _ | m
        · rw [dictComp_eq_getLast, hcomp] at h; simp at h
        · rw [dictComp_eq_getLast, hcomp] at h
          simp at h
          rw [← h, dictUpdate_singleton, dictInsert_of_not_mem _ hdup,
              dictKeys_append]
          rfl
  | pair prom a =>
      by_cases hdup : a ∈ dictKeys acc
      · simp [processSelector, hdup] at h
      · refine ⟨hdup, ?_⟩
        rw [processSelector] at h
        simp only [hdup, if_neg, ite_false] at h
        rcases hcomp : (pairMatches table prom).getLast? with _ | m
        · rw [dictComp_eq_getLast, hcomp] at h; simp at h
        · rw [dictComp_eq_getLast, hcomp] at h
          simp at h
          rw [← h, dictUpdate_singleton, dictInsert_of_not_mem _ hdup,
              dictKeys_append]
          rfl

/-- Splitting the validation loop at a list append. -/
theorem resolveSelectors_append (table : VarDict) (l1 l2 : List Selector) :
    resolveSelectors table (l1 ++ l2) =
      (resolveSelectors table l1).bind
        (fun d => l2.foldlM (processSelector table) d) := by
  rw [resolveSelectors, List.foldlM_append]
  rfl

/-- Any error escaping the validation loop was raised by a single selector
step. -/
theorem foldlM_error_exists (table : VarDict) :
    ∀ (sels : List Selector) (acc : VarDict) (e : SubError),
      sels.foldlM (processSelector table) acc = .error e →
      ∃ acc2 s, processSelector table acc2 s = .error e := by
  intro sels
  induction sels with
  | nil => intro acc e h; simp [List.foldlM, pure, Except.pure] at h
  | cons s rest ih =>
      intro acc e h
      rw [List.foldlM_cons] at h
      rcases hs : processSelector table acc s with e2 | d
      · rw [hs] at h
        have he : e2 = e := by simpa [Bind.bind, Except.bind] using h
        exact ⟨acc, s, by rw [hs, he]⟩
      · rw [hs] at h
        exact ih d e h

/-- An error from the input loop aborts construction with that error. -/
theorem subproblemInit_input_error (mi mo : VarDict)
    (ins outs : Option (List Selector)) (e : SubError)
    (h : resolveSelectorsOpt mi ins = .error e) :
    subproblemInit mi mo ins outs = .error e := by
  simp [subproblemInit, h, Bind.bind, Except.bind]

/-- With the input loop done, an error from the output loop aborts
construction with that error. -/
theorem subproblemInit_output_error (mi mo : VarDict)
    (ins outs : Option (List Selector)) (di : VarDict) (e : SubError)
    (hi : resolveSelectorsOpt mi ins = .ok di)
    (ho : resolveSelectorsOpt mo outs = .error e) :
    subproblemInit mi mo ins outs = .error e := by
  simp [subproblemInit, hi, ho, Bind.bind, Except.bind]

/-- When both loops finish, construction succeeds with the two options
dicts and the cleared complex-step flag. -/
theorem subproblemInit_ok (mi mo : VarDict)
    (ins outs : Option (List Selector)) (di dd : VarDict)
    (hi : resolveSelectorsOpt mi ins = .ok di)
    (ho : resolveSelectorsOpt mo outs = .ok dd) :
    subproblemInit mi mo ins outs = .ok ⟨di, dd, false⟩ := by
  simp [subproblemInit, hi, ho, Bind.bind, Except.bind]

/-- A selector with a fresh alias and a nonempty match list succeeds, binding
its requested alias to the last matching entry. -/
theorem processSelector_ok_of (table acc : VarDict) (s : Selector)
    (hfresh : s.reqName ∉ dictKeys acc)
    (hmatch : (match s with
               | .bare n => bareMatches table n
               | .pair p _ => pairMatches table p) ≠ []) :
    ∃ m, processSelector table acc s = .ok (acc ++ [(s.reqName, m)]) := by
  cases s with
  | bare n =>
      rcases hms : bareMatches table n with _ | ⟨m0, ms⟩
      · exact absurd hms hmatch
      · refine ⟨ms.getLastD m0, ?_⟩
        have hfresh2 : n ∉ dictKeys acc := hfresh
        rw [processSelector]
        simp only [hfresh2, if_neg, ite_false, hms, dictComp_cons]
        simp [dictUpdate_singleton, dictInsert_of_not_mem _ hfresh2,
          Selector.reqName]
  | pair p a =>
      rcases hms : pairMatches table p with _ | ⟨m0, ms⟩
      · exact absurd hms hmatch
      · refine ⟨ms.getLastD m0, ?_⟩
        have hfresh2 : a ∉ dictKeys acc := hfresh
        rw [processSelector]
        simp only [hfresh2, if_neg, ite_false, hms, dictComp_cons]
        simp [dictUpdate_singleton, dictInsert_of_not_mem _ hfresh2,
          Selector.reqName]

/-- The validation loop succeeds whenever the requested aliases are fresh and
pairwise distinct and every selector has at least one match; the resulting
keys are the accumulated keys followed by the requested aliases in order. -/
theorem foldlM_success (table : VarDict) :
    ∀ (sels : List Selector) (acc : VarDict),
      (dictKeys acc ++ sels.map Selector.reqName).Nodup →
      (∀ p a, Selector.pair p a ∈ sels → pairMatches table p ≠ []) →
      (∀ n, Selector.bare n ∈ sels → bareMatches table n ≠ []) →
      ∃ d, sels.foldlM (processSelector table) acc = .ok d ∧
           dictKeys d = dictKeys acc ++ sels.map Selector.reqName := by
  intro sels
  induction sels with
  | nil =>
      intro acc _ _ _
      exact ⟨acc, by simp [List.foldlM, pure, Except.pure], by simp⟩
  | cons s rest ih =>
      intro acc hnd hpair hbare
      have hfresh : s.reqName ∉ dictKeys acc := by
        rw [List.nodup_append] at hnd
        intro hmem
        exact hnd.2.2 hmem (by simp)
      have hmatch : (match s with
                     | .bare n => bareMatches table n
                     | .pair p _ => pairMatches table p) ≠ [] := by
        cases s with
        | bare n => exact hbare n (by simp)
        | pair p a => exact hpair p a (by simp)
      obtain ⟨m, hm⟩ := processSelector_ok_of table acc s hfresh hmatch
      have hnd2 : (dictKeys (acc ++ [(s.reqName, m)])
          ++ rest.map Selector.reqName).Nodup := by
        rw [dictKeys_append]
        simpa [dictKeys, List.append_assoc] using hnd
      obtain ⟨d, hd, hkeys⟩ := ih (acc ++ [(s.reqName, m)]) hnd2
        (fun p a hmem => hpair p a (by simp [hmem]))
        (fun n hmem => hbare n (by simp [hmem]))
      refine ⟨d, ?_, ?_⟩
      · rw [List.foldlM_cons, hm]
        simpa [Bind.bind, Except.bind] using hd
      · rw [hkeys, dictKeys_append]
        simp [dictKeys, List.append_assoc]

/-! ## Concrete fixtures used by witnesses and counterexamples -/

/-- Table entry with promoted name `y.x1.value` (spec scenario A). -/
def valueMeta1 : VarMeta := ⟨"y.x1.value", "m", [1], "first"⟩

/-- Table entry with promoted name `y.x2.value` (spec scenario A). -/
def valueMeta2 : VarMeta := ⟨"y.x2.value", "m", [1], "second"⟩

/-- A table in which the bare selector `value` is ambiguous: two promoted
names end with it. -/
def ambTable : VarDict :=
  [("y.x1.value", valueMeta1), ("y.x2.value", valueMeta2)]

/-- Table entry with promoted name `r`. -/
def rMeta : VarMeta := ⟨"r", "m", [1], "radius"⟩

/-- Table entry with promoted name `theta`. -/
def thetaMeta : VarMeta := ⟨"theta", "rad", [1], "angle"⟩

/-- A small well-behaved table (spec scenario B inputs). -/
def rTable : VarDict := [("r", rMeta), ("theta", thetaMeta)]

/-- Table entry whose promoted name `ab` ends with the characters of `b`
without a path-component boundary. -/
def abMeta : VarMeta := ⟨"ab", "", [], "no dot boundary"⟩

/-- A table exposing the plain-suffix (non-dotted) matching of the code. -/
def abTable : VarDict := [("ab", abMeta)]

/-- Neither validation loop can surface the ambiguity error, whatever the
table and selector list. -/
theorem resolveSelectorsOpt_ne_ambiguous (table : VarDict)
    (sels : Option (List Selector)) (v : String) :
    resolveSelectorsOpt table sels ≠ .error (.ambiguousVariable v) := by
  cases sels with
  | none => simp [resolveSelectorsOpt]
  | some l =>
      intro h
      obtain ⟨acc2, s, hs⟩ := foldlM_error_exists table l [] _ h
      exact processSelector_ne_ambiguous _ _ _ _ hs

/-! ## Claim theorems -/

/-- **C1** (code bug).  The claim says a bare selector whose suffix matches
two or more promoted names always raises the ambiguity error, on both the
input and the output resolution path.  The code cannot do so: the dict
comprehension at lines 117/168 keys every match under the constant selector
string, so the `len(inp_dict) > 1` checks at lines 121/172 are unreachable.
First conjunct: on a table where `value` matches the two promoted names
`y.x1.value` and `y.x2.value`, resolution silently succeeds, binding the
alias to the last-iterated match.  Second and third conjuncts: no selector
step and no construction, over any tables and selectors, ever yields the
ambiguity error. -/
theorem c1_ambiguous_selector_not_rejected :
    resolveSelectors ambTable [.bare "value"] = .ok [("value", valueMeta2)] ∧
    (∀ (table acc : VarDict) (s : Selector) (v : String),
      processSelector table acc s ≠ .error (.ambiguousVariable v)) ∧
    (∀ (mi mo : VarDict) (ins outs : Option (List Selector)) (v : String),
      subproblemInit mi mo ins outs ≠ .error (.ambiguousVariable v)) := by
  refine ⟨by decide, processSelector_ne_ambiguous, ?_⟩
  intro mi mo ins outs v h
  rcases hi : resolveSelectorsOpt mi ins with e | di
  · rw [subproblemInit_input_error mi mo ins outs e hi] at h
    have he : e = .ambiguousVariable v := by simpa using h
    exact resolveSelectorsOpt_ne_ambiguous mi ins v (he ▸ hi)
  · rcases ho : resolveSelectorsOpt mo outs with e | dd
    · rw [subproblemInit_output_error mi mo ins outs di e hi ho] at h
      have he : e = .ambiguousVariable v := by simpa using h
      exact resolveSelectorsOpt_ne_ambiguous mo outs v (he ▸ ho)
    · rw [subproblemInit_ok mi mo ins outs di dd hi ho] at h
      exact Except.noConfusion h

/-- **C3** (counterexample).  The claim says a bare selector matches exactly
the entries whose promoted name ends with it as a dotted-path suffix, and
that a promoted name merely ending with the selector's characters is not a
match.  The code uses plain `str.endswith`: on a table holding promoted name
`ab`, the selector `b` matches the entry (and resolution binds it), while
the dotted-suffix match set prescribed by the claim is empty. -/
theorem c3_counterexample :
    bareMatches abTable "b" ≠ dottedSuffixMatches abTable "b" ∧
    bareMatches abTable "b" = [abMeta] ∧
    dottedSuffixMatches abTable "b" = [] ∧
    resolveSelectors abTable [.bare "b"] = .ok [("b", abMeta)] := by
  decide

/-- **C3** (amended).  A bare selector matches exactly the table entries
whose promoted name ends with the selector as a plain character-string
suffix — no path-component boundary is required — and the selector's whole
resolution outcome is governed by that plain-suffix match list: its last
element is bound, or the unknown-variable error is raised when the list is
empty. -/
theorem c3_plain_suffix_matching :
    (∀ (table : VarDict) (name : String) (m : VarMeta),
      m ∈ bareMatches table name ↔
        m ∈ dictVals table ∧ pyEndsWith m.prom_name name = true) ∧
    (∀ (table acc : VarDict) (name : String),
      name ∉ dictKeys acc →
      processSelector table acc (.bare name) =
        match (bareMatches table name).getLast? with
        | none => .error (.unknownVariable name)
        | some m => .ok (dictInsert acc name m)) := by
  constructor
  · intro table name m
    simp [bareMatches, List.mem_filter]
  · intro table acc name hfresh
    rw [processSelector]
    simp only [hfresh, if_neg, ite_false]
    rw [dictComp_eq_getLast]
    rcases hlast : (bareMatches table name).getLast? with _ | m
    · simp
    · simp [dictUpdate_singleton]

/-- Witness for the amended C3 at a concrete input: the `ab` entry is a
plain-suffix match for `b`, and the resolver binds it. -/
theorem c3_plain_suffix_matching_witness :
    abMeta ∈ bareMatches abTable "b" ∧
    processSelector abTable [] (.bare "b") = .ok (dictInsert [] "b" abMeta) :=
  ⟨(c3_plain_suffix_matching.1 abTable "b" abMeta).mpr ⟨by decide, by decide⟩,
   (c3_plain_suffix_matching.2 abTable [] "b" (by decide)).trans (by decide)⟩

/-- A loop that has accumulated `d` over a prefix and then hits a failing
selector raises that selector's error for the whole list. -/
theorem resolveSelectors_step_error (table : VarDict) (l1 l2 : List Selector)
    (s : Selector) (d : VarDict) (e : SubError)
    (h1 : resolveSelectors table l1 = .ok d)
    (hs : processSelector table d s = .error e) :
    resolveSelectors table (l1 ++ s :: l2) = .error e := by
  rw [resolveSelectors_append, h1]
  show (s :: l2).foldlM (processSelector table) d = .error e
  rw [List.foldlM_cons, hs]
  rfl

/-- A tuple selector over a fresh alias with no exact promoted-name match
raises the unknown-variable error. -/
theorem processSelector_unknown_pair (table acc : VarDict) (p a : String)
    (hfresh : a ∉ dictKeys acc) (hz : pairMatches table p = []) :
    processSelector table acc (.pair p a) = .error (.unknownVariable p) := by
  rw [processSelector]
  simp [hfresh, hz, dictComp]

/-- A bare selector over a fresh alias with no suffix match raises the
unknown-variable error. -/
theorem processSelector_unknown_bare (table acc : VarDict) (n : String)
    (hfresh : n ∉ dictKeys acc) (hz : bareMatches table n = []) :
    processSelector table acc (.bare n) = .error (.unknownVariable n) := by
  rw [processSelector]
  simp [hfresh, hz, dictComp]

/-- **C5.**  Binding the same alias twice within the input set, or twice
within the output set — whatever the selector shapes — raises the
duplicate-alias error during construction, so no inner evaluation context is
ever provisioned (provisioning happens only in `setup`, which requires the
constructed state this error denies).  Duplicate detection is per-set: the
third conjunct shows construction succeeding whenever each set resolves on
its own, regardless of aliases shared across the two sets. -/
theorem c5_duplicate_alias_per_set :
    (∀ (mi mo : VarDict) (l1 l2 : List Selector) (s : Selector)
        (outs : Option (List Selector)) (d : VarDict),
      resolveSelectors mi l1 = .ok d → s.reqName ∈ dictKeys d →
      subproblemInit mi mo (some (l1 ++ s :: l2)) outs =
        .error (.duplicateAlias s.reqName)) ∧
    (∀ (mi mo : VarDict) (ins l1 l2 : List Selector) (s : Selector)
        (di d : VarDict),
      resolveSelectors mi ins = .ok di →
      resolveSelectors mo l1 = .ok d → s.reqName ∈ dictKeys d →
      subproblemInit mi mo (some ins) (some (l1 ++ s :: l2)) =
        .error (.duplicateAlias s.reqName)) ∧
    (∀ (mi mo : VarDict) (ins outs : List Selector) (di dd : VarDict),
      resolveSelectors mi ins = .ok di → resolveSelectors mo outs = .ok dd →
      subproblemInit mi mo (some ins) (some outs) = .ok ⟨di, dd, false⟩) := by
  refine ⟨?_, ?_, ?_⟩
  · intro mi mo l1 l2 s outs d h1 h2
    exact subproblemInit_input_error mi mo _ outs _
      (resolveSelectors_step_error mi l1 l2 s d _ h1
        (processSelector_duplicate mi d s h2))
  · intro mi mo ins l1 l2 s di d hi h1 h2
    exact subproblemInit_output_error mi mo _ _ di _ hi
      (resolveSelectors_step_error mo l1 l2 s d _ h1
        (processSelector_duplicate mo d s h2))
  · intro mi mo ins outs di dd hi ho
    exact subproblemInit_ok mi mo _ _ di dd hi ho

/-- Witness for C5: the selector list `['r', 'r']` is rejected with the
duplicate-alias error, while using the alias `r` once in the input set and
once in the output set is accepted. -/
theorem c5_witness :
    subproblemInit rTable rTable (some [.bare "r", .bare "r"]) (some []) =
      .error (.duplicateAlias "r") ∧
    subproblemInit rTable rTable (some [.bare "r"]) (some [.bare "r"]) =
      .ok ⟨[("r", rMeta)], [("r", rMeta)], false⟩ :=
  ⟨c5_duplicate_alias_per_set.1 rTable rTable [.bare "r"] [] (.bare "r")
      (some []) [("r", rMeta)] (by decide) (by decide),
   c5_duplicate_alias_per_set.2.2 rTable rTable [.bare "r"] [.bare "r"]
      [("r", rMeta)] [("r", rMeta)] (by decide) (by decide)⟩

/-- **C6.**  A selector of either shape, in either set, whose name matches
zero entries of the corresponding table makes construction fail with the
unknown-variable error; the failure is fatal — construction returns the
error, never a node state. -/
theorem c6_unknown_variable_fatal :
    (∀ (mi mo : VarDict) (l1 l2 : List Selector) (p a : String)
        (outs : Option (List Selector)) (d : VarDict),
      resolveSelectors mi l1 = .ok d → a ∉ dictKeys d →
      pairMatches mi p = [] →
      subproblemInit mi mo (some (l1 ++ .pair p a :: l2)) outs =
        .error (.unknownVariable p)) ∧
    (∀ (mi mo : VarDict) (l1 l2 : List Selector) (n : String)
        (outs : Option (List Selector)) (d : VarDict),
      resolveSelectors mi l1 = .ok d → n ∉ dictKeys d →
      bareMatches mi n = [] →
      subproblemInit mi mo (some (l1 ++ .bare n :: l2)) outs =
        .error (.unknownVariable n)) ∧
    (∀ (mi mo : VarDict) (ins l1 l2 : List Selector) (p a : String)
        (di d : VarDict),
      resolveSelectors mi ins = .ok di →
      resolveSelectors mo l1 = .ok d → a ∉ dictKeys d →
      pairMatches mo p = [] →
      subproblemInit mi mo (some ins) (some (l1 ++ .pair p a :: l2)) =
        .error (.unknownVariable p)) ∧
    (∀ (mi mo : VarDict) (ins l1 l2 : List Selector) (n : String)
        (di d : VarDict),
      resolveSelectors mi ins = .ok di →
      resolveSelectors mo l1 = .ok d → n ∉ dictKeys d →
      bareMatches mo n = [] →
      subproblemInit mi mo (some ins) (some (l1 ++ .bare n :: l2)) =
        .error (.unknownVariable n)) := by
  refine ⟨?_, ?_, ?_, ?_⟩
  · intro mi mo l1 l2 p a outs d h1 hfresh hz
    exact subproblemInit_input_error mi mo _ outs _
      (resolveSelectors_step_error mi l1 l2 _ d _ h1
        (processSelector_unknown_pair mi d p a hfresh hz))
  · intro mi mo l1 l2 n outs d h1 hfresh hz
    exact subproblemInit_input_error mi mo _ outs _
      (resolveSelectors_step_error mi l1 l2 _ d _ h1
        (processSelector_unknown_bare mi d n hfresh hz))
  · intro mi mo ins l1 l2 p a di d hi h1 hfresh hz
    exact subproblemInit_output_error mi mo _ _ di _ hi
      (resolveSelectors_step_error mo l1 l2 _ d _ h1
        (processSelector_unknown_pair mo d p a hfresh hz))
  · intro mi mo ins l1 l2 n di d hi h1 hfresh hz
    exact subproblemInit_output_error mi mo _ _ di _ hi
      (resolveSelectors_step_error mo l1 l2 _ d _ h1
        (processSelector_unknown_bare mo d n hfresh hz))

/-- Witness for C6: an input tuple selector naming the absent promoted name
`zzz`, and an output bare selector naming the absent `qqq`, each abort
construction with the unknown-variable error. -/
theorem c6_witness :
    subproblemInit rTable rTable (some [.pair "zzz" "z"]) (some []) =
      .error (.unknownVariable "zzz") ∧
    subproblemInit rTable rTable (some [.bare "r"]) (some [.bare "qqq"]) =
      .error (.unknownVariable "qqq") :=
  ⟨c6_unknown_variable_fatal.1 rTable rTable [] [] "zzz" "z" (some []) []
      (by decide) (by decide) (by decide),
   c6_unknown_variable_fatal.2.2.2 rTable rTable [.bare "r"] [] [] "qqq"
      [("r", rMeta)] [] (by decide) (by decide) (by decide) (by decide)⟩

/-- **C7.**  When the requested aliases are pairwise distinct, every tuple
selector's promoted name is present, and every bare selector has exactly one
suffix match, resolution succeeds and the returned options dict's keys are
exactly the requested aliases — bare name or given alias — in selector input
order. -/
theorem c7_resolution_returns_requested_aliases :
    ∀ (table : VarDict) (sels : List Selector),
      (sels.map Selector.reqName).Nodup →
      (∀ p a, Selector.pair p a ∈ sels → pairMatches table p ≠ []) →
      (∀ n, Selector.bare n ∈ sels → (bareMatches table n).length = 1) →
      ∃ d, resolveSelectors table sels = .ok d ∧
           dictKeys d = sels.map Selector.reqName := by
  intro table sels hnd hpair hbare
  have h := foldlM_success table sels []
    (by simpa [dictKeys] using hnd) hpair
    (fun n hmem hnil => by
      have hlen := hbare n hmem
      rw [hnil] at hlen
      simp at hlen)
  simpa [resolveSelectors, dictKeys] using h

/-- Witness for C7: the list `['r', ('theta', 't')]` resolves against the
`r`/`theta` table with alias keys `[r, t]`, in order. -/
theorem c7_witness :
    ∃ d, resolveSelectors rTable [.bare "r", .pair "theta" "t"] = .ok d ∧
         dictKeys d = [Selector.bare "r",
           Selector.pair "theta" "t"].map Selector.reqName :=
  c7_resolution_returns_requested_aliases rTable
    [.bare "r", .pair "theta" "t"]
    (by decide)
    (by
      intro p a hmem
      simp [Selector.pair.injEq] at hmem
      rw [hmem.1]
      decide)
    (by
      intro n hmem
      simp [Selector.bare.injEq] at hmem
      rw [hmem]
      decide)

/-! ## Compute-side fixtures -/

/-- Table entry with promoted name `x`. -/
def xMeta : VarMeta := ⟨"x", "m", [1], "x output"⟩

/-- A concrete inner engine over integer values whose settle is the
identity. -/
def testEngine : InnerEngine Int :=
  ⟨fun _ => 0, fun vs => vs, fun vs => vs⟩

/-- A constructed node binding input `r` and output `x`. -/
def testInit : NodeInit := ⟨[("r", rMeta)], [("x", xMeta)], false⟩

/-- The node state `setup` produces from `testInit` with no driver. -/
def testState : NodeState Int := setupNode testEngine testInit false

/-- A constant caller input valuation. -/
def testInputs : String → Int := fun _ => 1

/-- Table entry with promoted name `sub.u`. -/
def subUMeta : VarMeta := ⟨"sub.u", "", [], "inner input"⟩

/-- Table entry with promoted name `sub.x`. -/
def subXMeta : VarMeta := ⟨"sub.x", "", [], "inner output"⟩

/-- A constructed node whose output alias `a` renames promoted name `sub.x`
and whose input alias `uin` renames promoted name `sub.u`. -/
def renameInit : NodeInit := ⟨[("uin", subUMeta)], [("a", subXMeta)], false⟩

/-- The three-evaluation sequence of the mode-transition property: evaluate
in real mode, then complex mode, then real mode again, with the same
inputs. -/
def realComplexReal {V : Type} (E : InnerEngine V) (st : NodeState V)
    (inputs : String → V) :
    (NodeState V × List (String × V)) × (NodeState V × List (String × V)) ×
      (NodeState V × List (String × V)) :=
  let r1 := computeStep E st false inputs
  let r2 := computeStep E r1.1 true inputs
  let r3 := computeStep E r2.1 false inputs
  (r1, r2, r3)

/-- **C10** (counterexample).  The claim says leaving either selector list
at its `None` default fails before any binding is made.  With a valid input
list and `outputs=None`, construction does fail — but the input loop has
already bound `r` when the `TypeError` of iterating `None` is raised, so the
error does not precede every binding. -/
theorem c10_counterexample :
    subproblemInit rTable rTable (some [.bare "r"]) none =
      .error .noneNotIterable ∧
    resolveSelectorsOpt rTable (some [.bare "r"]) = .ok [("r", rMeta)] ∧
    ([("r", rMeta)] : VarDict) ≠ ([] : VarDict) := by
  decide

/-- **C10** (amended).  Construction with either selector list left at its
`None` default always fails — iterating `None` raises before any inner
context is provisioned, and no node state is ever obtained.  When the input
list is `None` the error precedes any binding; when only the output list is
`None`, the input bindings have already been resolved when the error is
raised. -/
theorem c10_defaults_always_fail :
    (∀ (mi mo : VarDict) (outs : Option (List Selector)),
      subproblemInit mi mo none outs = .error .noneNotIterable) ∧
    (∀ (mi mo : VarDict) (ins : Option (List Selector)),
      ∃ e, subproblemInit mi mo ins none = .error e) := by
  constructor
  · intro mi mo outs
    exact subproblemInit_input_error mi mo none outs _ rfl
  · intro mi mo ins
    rcases hi : resolveSelectorsOpt mi ins with e | di
    · exact ⟨e, subproblemInit_input_error mi mo ins none e hi⟩
    · exact ⟨.noneNotIterable,
        subproblemInit_output_error mi mo ins none di _ hi rfl⟩

/-- **C4.**  Starting from a node provisioned in real mode whose inner store
is the engine's fresh state, evaluating in real mode, then complex mode,
then real mode re-provisions the inner context exactly twice — not on the
first call, once at each of the two mode changes — and the two real-mode
results are equal.  In general (last two conjuncts) an evaluation whose mode
equals the recorded previous mode never re-provisions, and after every
evaluation the recorded previous mode equals the mode just used. -/
theorem c4_mode_transition_reprovisions_twice {V : Type} (E : InnerEngine V)
    (st : NodeState V) (inputs : String → V)
    (hprev : st.prevComplexStep = false)
    (hv : st.subprob.vals = E.vals0) :
    (realComplexReal E st inputs).1.1.subprob.provisionCount
        = st.subprob.provisionCount ∧
    (realComplexReal E st inputs).2.1.1.subprob.provisionCount
        = st.subprob.provisionCount + 1 ∧
    (realComplexReal E st inputs).2.2.1.subprob.provisionCount
        = st.subprob.provisionCount + 2 ∧
    (realComplexReal E st inputs).2.2.2 = (realComplexReal E st inputs).1.2 ∧
    (∀ (st2 : NodeState V) (u : Bool) (ins2 : String → V),
      u = st2.prevComplexStep →
      (computeStep E st2 u ins2).1.subprob.provisionCount
        = st2.subprob.provisionCount) ∧
    (∀ (st2 : NodeState V) (u : Bool) (ins2 : String → V),
      (computeStep E st2 u ins2).1.prevComplexStep = u) := by
  refine ⟨?_, ?_, ?_, ?_, ?_, ?_⟩
  · simp [realComplexReal, computeStep, modeTransition, hprev]
  · simp [realComplexReal, computeStep, modeTransition, hprev, provision,
      setComplexStepMode]
  · simp [realComplexReal, computeStep, modeTransition, hprev, provision,
      setComplexStepMode]
  · simp [realComplexReal, computeStep, modeTransition, hprev, provision,
      setComplexStepMode, pushInputs, hv]
  · intro st2 u ins2 h2
    simp [computeStep, modeTransition, h2]
  · intro st2 u ins2
    by_cases h2 : u = st2.prevComplexStep
    · simp [computeStep, modeTransition, h2]
    · simp [computeStep, modeTransition, h2]

/-- Witness for C4 at the concrete integer node: the freshly set-up state
satisfies both hypotheses and the three-evaluation sequence re-provisions
exactly twice with equal real-mode results. -/
theorem c4_witness :
    testState.prevComplexStep = false ∧
    testState.subprob.vals = testEngine.vals0 ∧
    ((realComplexReal testEngine testState testInputs).1.1.subprob.provisionCount
        = testState.subprob.provisionCount ∧
    (realComplexReal testEngine testState testInputs).2.1.1.subprob.provisionCount
        = testState.subprob.provisionCount + 1 ∧
    (realComplexReal testEngine testState testInputs).2.2.1.subprob.provisionCount
        = testState.subprob.provisionCount + 2 ∧
    (realComplexReal testEngine testState testInputs).2.2.2
        = (realComplexReal testEngine testState testInputs).1.2 ∧
    (∀ (st2 : NodeState Int) (u : Bool) (ins2 : String → Int),
      u = st2.prevComplexStep →
      (computeStep testEngine st2 u ins2).1.subprob.provisionCount
        = st2.subprob.provisionCount) ∧
    (∀ (st2 : NodeState Int) (u : Bool) (ins2 : String → Int),
      (computeStep testEngine st2 u ins2).1.prevComplexStep = u)) :=
  ⟨rfl, rfl,
   c4_mode_transition_reprovisions_twice testEngine testState testInputs
     rfl rfl⟩

/-- Folding `set_val` assignments leaves every promoted name outside the
assigned set untouched. -/
theorem foldl_setVal_not_mem {V : Type} (g : String → String)
    (f : String → V) :
    ∀ (names : List String) (vs : String → V) (k : String),
      k ∉ names.map g →
      (names.foldl (fun acc x => setVal acc (g x) (f x)) vs) k = vs k := by
  intro names
  induction names with
  | nil => intro vs k _; rfl
  | cons x rest ih =>
      intro vs k hk
      simp only [List.map_cons, List.mem_cons, not_or] at hk
      rw [List.foldl_cons, ih _ k hk.2]
      simp [setVal, hk.1]

/-- Folding `set_val` assignments over pairwise-distinct promoted names
stores each caller value at its own promoted name. -/
theorem foldl_setVal_mem {V : Type} (g : String → String) (f : String → V) :
    ∀ (names : List String) (vs : String → V) (a : String),
      (names.map g).Nodup → a ∈ names →
      (names.foldl (fun acc x => setVal acc (g x) (f x)) vs) (g a) = f a := by
  intro names
  induction names with
  | nil => intro vs a _ h; simp at h
  | cons x rest ih =>
      intro vs a hnd hmem
      rw [List.map_cons, List.nodup_cons] at hnd
      rw [List.foldl_cons]
      rcases List.mem_cons.mp hmem with rfl | hmem2
      · rw [foldl_setVal_not_mem g f rest _ _ hnd.1]
        simp [setVal]
      · exact ih _ a hnd.2 hmem2

/-- **C8.**  With the inner context already provisioned in the current mode,
an evaluation does not re-provision; the settled store is the driver run
(when one is configured, otherwise the model's own run) applied to the store
after every input binding's caller value has been pushed at its promoted
name; the returned mapping's keys are exactly the declared output aliases in
order; every returned value is the settled store's value at that output
binding's promoted name; and — when the input bindings' promoted names are
pairwise distinct — the pushed store holds each caller value at its
binding's promoted name. -/
theorem c8_evaluate_settles_all_outputs {V : Type} (E : InnerEngine V)
    (st : NodeState V) (ucs : Bool) (inputs : String → V)
    (h : ucs = st.prevComplexStep) :
    (computeStep E st ucs inputs).1.subprob.provisionCount
        = st.subprob.provisionCount ∧
    (computeStep E st ucs inputs).1.subprob.vals
        = (if st.hasDriver then E.runDriver else E.runModel)
            (pushInputs st inputs st.subprob.vals) ∧
    (computeStep E st ucs inputs).2.map Prod.fst = st.output_names ∧
    (∀ pr ∈ (computeStep E st ucs inputs).2,
      pr.2 = (computeStep E st ucs inputs).1.subprob.vals
               (lookupProm st.options_outputs pr.1)) ∧
    ((st.input_names.map (lookupProm st.options_inputs)).Nodup →
      ∀ a ∈ st.input_names,
        pushInputs st inputs st.subprob.vals
          (lookupProm st.options_inputs a) = inputs a) := by
  refine ⟨?_, ?_, ?_, ?_, ?_⟩
  · simp [computeStep, modeTransition, h]
  · by_cases hd : st.hasDriver
    · simp [computeStep, modeTransition, h, hd]
    · simp [computeStep, modeTransition, h, hd]
  · simp [computeStep, List.map_map, Function.comp_def]
  · intro pr hpr
    simp only [computeStep, modeTransition, h] at hpr ⊢
    simp only [ne_eq, not_true_eq_false, ite_false, if_neg] at hpr ⊢
    obtain ⟨op, hop, rfl⟩ := List.mem_map.mp hpr
    rfl
  · intro hnd a ha
    exact foldl_setVal_mem (lookupProm st.options_inputs) inputs
      st.input_names st.subprob.vals a hnd ha

/-- Witness for C8 at the concrete integer node in real mode. -/
theorem c8_witness :
    false = testState.prevComplexStep ∧
    ((computeStep testEngine testState false testInputs).1.subprob.provisionCount
        = testState.subprob.provisionCount ∧
    (computeStep testEngine testState false testInputs).1.subprob.vals
        = (if testState.hasDriver then testEngine.runDriver
           else testEngine.runModel)
            (pushInputs testState testInputs testState.subprob.vals) ∧
    (computeStep testEngine testState false testInputs).2.map Prod.fst
        = testState.output_names ∧
    (∀ pr ∈ (computeStep testEngine testState false testInputs).2,
      pr.2 = (computeStep testEngine testState false testInputs).1.subprob.vals
               (lookupProm testState.options_outputs pr.1)) ∧
    ((testState.input_names.map (lookupProm testState.options_inputs)).Nodup →
      ∀ a ∈ testState.input_names,
        pushInputs testState testInputs testState.subprob.vals
          (lookupProm testState.options_inputs a) = testInputs a)) :=
  ⟨rfl, c8_evaluate_settles_all_outputs testEngine testState false testInputs
    rfl⟩

/-- **C9.**  No operation of the node mutates a variable descriptor: the
pop-then-restore of the promoted name during `setup` nets to the identity on
a descriptor's contents, and the descriptor tables held in the node state
are unchanged by `setup`, by evaluation, and by sensitivity computation. -/
theorem c9_descriptors_not_mutated {V M : Type} (E : InnerEngine V)
    (init : NodeInit) (hd : Bool) (st : NodeState V) (ucs : Bool)
    (inputs : String → V) (tots : String × String → M) :
    (∀ m : VarMeta, metaPopRestore m = m) ∧
    (setupNode E init hd).options_inputs = init.inputs ∧
    (setupNode E init hd).options_outputs = init.outputs ∧
    (computeStep E st ucs inputs).1.options_inputs = st.options_inputs ∧
    (computeStep E st ucs inputs).1.options_outputs = st.options_outputs ∧
    (computePartialsStep st inputs tots).1.options_inputs
        = st.options_inputs ∧
    (computePartialsStep st inputs tots).1.options_outputs
        = st.options_outputs := by
  refine ⟨fun m => rfl, ?_, ?_, rfl, rfl, rfl, rfl⟩
  · show init.inputs.map (fun kv => (kv.1, metaPopRestore kv.2)) = init.inputs
    simp [metaPopRestore]
  · show init.outputs.map (fun kv => (kv.1, metaPopRestore kv.2)) = init.outputs
    simp [metaPopRestore]

/-- **C2** (counterexample).  The claim says the total-derivative facility is
invoked with the bindings' promoted names, not the local aliases.  The code
passes `self._output_names`/`self._input_names` — the local aliases.  On a
node whose output selector is the renaming pair `('sub.x', 'a')`, the single
`compute_totals` call requests `of=['a']`, while the output binding's
promoted name is `sub.x`. -/
theorem c2_counterexample :
    subproblemInit [("sub.u", subUMeta)] [("sub.x", subXMeta)]
        (some [.pair "sub.u" "uin"]) (some [.pair "sub.x" "a"])
      = .ok renameInit ∧
    (computePartialsStep (setupNode testEngine renameInit false)
        (fun _ => (0 : Int)) (fun _ => (0 : Int))).2.1.of = ["a"] ∧
    (setupNode testEngine renameInit false).output_names.map
        (lookupProm (setupNode testEngine renameInit false).options_outputs)
      = ["sub.x"] ∧
    (["a"] : List String) ≠ ["sub.x"] := by
  refine ⟨by decide, rfl, by decide, by decide⟩

/-- **C2** (amended).  Sensitivity computation invokes the total-derivative
facility exactly once — the single call the embedding exposes — requesting
`of` equal to the output bindings' local variable names and `wrt` equal to
the input bindings' local variable names (these coincide with the promoted
names only when no renaming alias is used), and assembles one dense block
for every (output alias, input alias) pair, in loop order, each block being
the facility's value for that pair. -/
theorem c2_totals_called_once_dense {V M : Type} (st : NodeState V)
    (inputs : String → V) (tots : String × String → M) :
    (computePartialsStep st inputs tots).2.1
        = { of := st.output_names, wrt := st.input_names } ∧
    (computePartialsStep st inputs tots).2.2.map Prod.fst
        = st.output_names.flatMap
            (fun o => st.input_names.map (fun w => (o, w))) ∧
    (∀ e ∈ (computePartialsStep st inputs tots).2.2, e.2 = tots e.1) := by
  refine ⟨rfl, ?_, ?_⟩
  · simp [computePartialsStep, List.map_flatMap, List.map_map,
      Function.comp_def]
  · intro e he
    simp only [computePartialsStep, List.mem_flatMap, List.mem_map] at he
    obtain ⟨o, _, w, _, rfl⟩ := he
    rfl

/-- Witness for the amended C2 at the concrete renaming node. -/
theorem c2_totals_witness :
    (computePartialsStep (setupNode testEngine renameInit false) testInputs
        (fun pr => pr.1 ++ "/" ++ pr.2)).2.1
      = { of := ["a"], wrt := ["uin"] } ∧
    (computePartialsStep (setupNode testEngine renameInit false) testInputs
        (fun pr => pr.1 ++ "/" ++ pr.2)).2.2.map Prod.fst
      = [("a", "uin")] ∧
    (∀ e ∈ (computePartialsStep (setupNode testEngine renameInit false)
        testInputs (fun pr => pr.1 ++ "/" ++ pr.2)).2.2,
      e.2 = e.1.1 ++ "/" ++ e.1.2) :=
  c2_totals_called_once_dense (setupNode testEngine renameInit false)
    testInputs (fun pr => pr.1 ++ "/" ++ pr.2)

/-- Witness for C1: at the ambiguous concrete input, the selector step does
not produce the ambiguity error. -/
theorem c1_witness :
    processSelector ambTable [] (.bare "value")
      ≠ .error (.ambiguousVariable "value") :=
  c1_ambiguous_selector_not_rejected.2.1 ambTable [] (.bare "value") "value"

end Subproblem
